import Mathlib

/-!
Shallow embedding of the alt-text generation pipeline
(`generate_alt_text.py`): image locator, path resolver, caption
dispatch and the per-document processing loop, together with proofs
about them.  Document text is modelled as `List Char`; the three
regular expressions of the script (`MD_IMG_RE`, `HTML_IMG_RE`,
`SRC_RE`/`ALT_RE`) are embedded as deterministic anchored matchers
(their character classes exclude the characters that follow them, so
the Python backtracking engine is deterministic on these patterns).
-/

namespace AltText

abbrev Chars := List Char

/-- Greedy scan of a character class: longest emitted run satisfying `p`
together with the remaining suffix (the semantics of a regex `[...]*`
run whose class excludes the character that must follow it). -/
def spanP (p : Char → Prop) [DecidablePred p] : Chars → Chars × Chars
  | [] => ([], [])
  | c :: t => if p c then ((spanP p t).1.cons c, (spanP p t).2) else ([], c :: t)

/-- Python `\s` on the characters relevant here. -/
def pySpaceP (c : Char) : Prop :=
  c = ' ' ∨ c = '\t' ∨ c = '\n' ∨ c = '\r' ∨ c = '\x0b' ∨ c = '\x0c'

instance : DecidablePred pySpaceP := fun c => by unfold pySpaceP; infer_instance

/-- Python `\w` (ASCII fragment), used for the `\b` boundary after `img`. -/
def isWordChar (c : Char) : Bool := c.isAlphanum || c == '_'

/-- The optional title group `(?:\s+"[^"]*")?` of `MD_IMG_RE`:
if it matches, returns the number of consumed characters and the
remaining suffix. -/
def mdTitle (r3 : Chars) : Option (Nat × Chars) :=
  match spanP pySpaceP r3 with
  | (ws, r1) =>
    if ws = [] then none
    else
      match r1 with
      | '"' :: r2 =>
        match spanP (fun c => c ≠ '"') r2 with
        | (t, r4) =>
          match r4 with
          | '"' :: r5 => some (ws.length + t.length + 2, r5)
          | _ => none
      | _ => none

/-- Body of `MD_IMG_RE` after the leading `![`: alt group, src group and
total match length. -/
def mdBody (r0 : Chars) : Option ((Chars × Chars) × Nat) :=
  match spanP (fun c => c ≠ ']') r0 with
  | (alt, r1) =>
    match r1 with
    | ']' :: '(' :: r2 =>
      match spanP (fun c => ¬(c = ')' ∨ c = ' ')) r2 with
      | (src, r3) =>
        if src = [] then none
        else
          match mdTitle r3 with
          | some (tl, r4) =>
            match r4 with
            | ')' :: _ => some ((alt, src), alt.length + src.length + tl + 5)
            | _ => none
          | none =>
            match r3 with
            | ')' :: _ => some ((alt, src), alt.length + src.length + 5)
            | _ => none
    | _ => none

/-- Anchored match of `MD_IMG_RE` = `!\[([^\]]*)\]\(([^) ]+)(?:\s+"[^"]*")?\)`
at the head of the text: `((alt, src), matchLength)`. -/
def mdAt : Chars → Option ((Chars × Chars) × Nat)
  | c1 :: c2 :: r0 => if c1 = '!' ∧ c2 = '[' then mdBody r0 else none
  | _ => none

/-- Matcher for `<img\b[^>]*>` after the leading `<`:
`(matchedTag, matchLength)`. -/
def htmlAfter (rest : Chars) : Option (Chars × Nat) :=
  match rest with
  | a :: b :: c :: r2 =>
    if a.toLower = 'i' ∧ b.toLower = 'm' ∧ c.toLower = 'g' then
      match r2 with
      | [] => none
      | d :: _ =>
        if isWordChar d then none
        else
          match spanP (fun x => x ≠ '>') r2 with
          | (body, r3) =>
            match r3 with
            | '>' :: _ => some ('<' :: a :: b :: c :: (body ++ ['>']), body.length + 5)
            | _ => none
    else none
  | _ => none

/-- Anchored match of the case-insensitive `HTML_IMG_RE` = `<img\b[^>]*>`. -/
def htmlAt : Chars → Option (Chars × Nat)
  | [] => none
  | c :: rest => if c = '<' then htmlAfter rest else none

/-- Anchored match of `SRC_RE` = `src=["\']([^"\']+)["\']` (case-insensitive),
returning the captured group. -/
def srcAt : Chars → Option Chars
  | s :: r :: c :: '=' :: q :: rest =>
    if s.toLower = 's' ∧ r.toLower = 'r' ∧ c.toLower = 'c' ∧ (q = '"' ∨ q = '\'') then
      match spanP (fun x => ¬(x = '"' ∨ x = '\'')) rest with
      | (v, r2) =>
        if v = [] then none
        else
          match r2 with
          | q2 :: _ => if q2 = '"' ∨ q2 = '\'' then some v else none
          | [] => none
    else none
  | _ => none

/-- Anchored match of `ALT_RE` = `alt=["\']([^"\']*)["\']` (case-insensitive),
returning the captured group and the match length. -/
def altAt : Chars → Option (Chars × Nat)
  | a :: l :: t :: '=' :: q :: rest =>
    if a.toLower = 'a' ∧ l.toLower = 'l' ∧ t.toLower = 't' ∧ (q = '"' ∨ q = '\'') then
      match spanP (fun x => ¬(x = '"' ∨ x = '\'')) rest with
      | (v, r2) =>
        match r2 with
        | q2 :: _ => if q2 = '"' ∨ q2 = '\'' then some (v, v.length + 6) else none
        | [] => none
    else none
  | _ => none

/-- `SRC_RE.search` inside a tag. -/
def srcSearch : Chars → Option Chars
  | [] => none
  | c :: t =>
    match srcAt (c :: t) with
    | some v => some v
    | none => srcSearch t

/-- `ALT_RE.search` inside a tag (captured group only). -/
def altSearch : Chars → Option Chars
  | [] => none
  | c :: t =>
    match altAt (c :: t) with
    | some (v, _) => some v
    | none => altSearch t

/-- `ALT_RE.sub(repl, tag)`: leftmost non-overlapping global replacement
(the replacement text of the script contains no template escapes for
backslash-free captions, so it is modelled as literal text). -/
def altSub (repl : Chars) : Nat → Chars → Chars
  | 0, s => s
  | _ + 1, [] => []
  | n + 1, c :: t =>
    match altAt (c :: t) with
    | some (_, k) => repl ++ altSub repl n ((c :: t).drop k)
    | none => c :: altSub repl n t

/-- `re.finditer` for an anchored matcher `f` that reports match lengths:
scan from index `i`, emit `(start, payload)`, resume after each match.
Fuel is the length of the scanned text. -/
def findAux {α : Type} (f : Chars → Option (α × Nat)) : Nat → Chars → Nat → List (Nat × α)
  | 0, _, _ => []
  | _ + 1, [], _ => []
  | n + 1, c :: t, i =>
    match f (c :: t) with
    | some (a, k) => (i, a) :: findAux f n ((c :: t).drop k) (i + k)
    | none => findAux f n t (i + 1)

/-- `re.search(text, pos)` for an anchored matcher: first index `≥ i`
where `f` matches, with payload and match length. -/
def searchAux {α : Type} (f : Chars → Option (α × Nat)) : Nat → Chars → Nat → Option (Nat × α × Nat)
  | 0, _, _ => none
  | _ + 1, [], i => (f []).map (fun ak => (i, ak.1, ak.2))
  | n + 1, c :: t, i =>
    match f (c :: t) with
    | some (a, k) => some (i, a, k)
    | none => searchAux f n t (i + 1)

inductive Kind where
  | md
  | html
deriving DecidableEq

/-- The Markdown pass of `find_images_in_markdown`. -/
def mdImages (txt : Chars) : List (Kind × Chars × Nat) :=
  (findAux mdAt txt.length txt 0).map (fun e => (Kind.md, e.2.2, e.1))

/-- The HTML pass of `find_images_in_markdown`: a tag without a `src`
attribute yields no reference. -/
def htmlImages (txt : Chars) : List (Kind × Chars × Nat) :=
  (findAux htmlAt txt.length txt 0).filterMap
    (fun e => (srcSearch e.2).map (fun v => (Kind.html, v, e.1)))

/-- `find_images_in_markdown`: all Markdown matches, then all HTML
matches, each tuple `(kind, src, span_start_index)`. -/
def find_images_in_markdown (txt : Chars) : List (Kind × Chars × Nat) :=
  mdImages txt ++ htmlImages txt

/-- `src.split("?")[0].split("#")[0]`. -/
def stripQF (src : Chars) : Chars :=
  (src.takeWhile (fun c => c ≠ '?')).takeWhile (fun c => c ≠ '#')

/-- `p.startswith(pre)` on character lists. -/
def hasPrefixL : Chars → Chars → Bool
  | [], _ => true
  | _ :: _, [] => false
  | p :: ps, c :: cs => p == c && hasPrefixL ps cs

/-- `Path(p).parent` (string model): prefix before the last `/`, or `.`. -/
def parentDir (p : Chars) : Chars :=
  match p.reverse.dropWhile (fun c => c ≠ '/') with
  | [] => ['.']
  | _ :: t => t.reverse

/-- `Path(a) / b` for a relative `b` (string model). -/
def pathJoin (a b : Chars) : Chars :=
  if a = ['.'] then b else a ++ '/' :: b

/-- The candidate loop `for c in candidates: if c.exists(): return c`. -/
def firstExisting (fs : Chars → Bool) : List Chars → Option Chars
  | [] => none
  | c :: t => if fs c then some c else firstExisting fs t

/-- `resolve_image_path`: strip query/fragment, remote URLs resolve to
`None`, otherwise try the ordered candidate list and fall back to its
first element.  `fs` abstracts `Path.exists`. -/
def resolve_image_path (fs : Chars → Bool) (src : Chars) (md_path : Chars) : Option Chars :=
  let p := stripQF src
  if hasPrefixL "http://".data p || hasPrefixL "https://".data p then none
  else
    let cands :=
      if hasPrefixL "/".data p then
        [pathJoin "static".data (p.dropWhile (fun c => c = '/')), p.dropWhile (fun c => c = '/')]
      else
        [pathJoin (parentDir md_path) p, pathJoin "static".data p, p]
    match firstExisting fs cands with
    | some c => some c
    | none => some (cands.headD [])

/-- Modelled from the spec (§4.2), for comparison with the source
definition: the ordered candidate list — a root-relative source tries
the static-assets root then the working-directory root; a relative
source tries the document's directory, the static-assets root, then the
working directory. -/
def spec_candidates (src md_path : Chars) : List Chars :=
  let p := stripQF src
  if hasPrefixL "/".data p then
    [pathJoin "static".data (p.dropWhile (fun c => c = '/')), p.dropWhile (fun c => c = '/')]
  else
    [pathJoin (parentDir md_path) p, pathJoin "static".data p, p]

/-- Modelled from the spec (§4.2): the first existing candidate wins;
if none exists, the first candidate is still returned (never `None`). -/
def spec_resolve (fs : Chars → Bool) (src md_path : Chars) : Option Chars :=
  match (spec_candidates src md_path).find? fs with
  | some c => some c
  | none => some ((spec_candidates src md_path).headD [])

/-- A file system in which only `static/a.png` exists. -/
def fsB (q : Chars) : Bool := q == "static/a.png".data

/-- The external collaborators of `process_file`: the file system, the
optional local captioner, the `HF_API_TOKEN` flag, the remote API on a
local file, the URL download, and the remote API on the downloaded
temporary file (keyed by URL).  `Except.error` models a raised
exception carrying its message. -/
structure Env where
  fs : Chars → Bool
  caption_func : Option (Chars → Except Chars Chars)
  token : Bool
  hf_api : Chars → Except Chars Chars
  fetch : Chars → Except Chars Unit
  hf_api_tmp : Chars → Except Chars Chars

/-- `f"(error: {e})"`. -/
def errCap (e : Chars) : Chars := "(error: ".data ++ e ++ [')']

/-- The remote-image branch of `process_file` (download to a
`NamedTemporaryFile(delete=False)`, caption it, `os.unlink` it):
returns `(caption, tempFileCreated, tempFileRemoved)`.  On a download
error no temporary file is created; on a captioning error the
`os.unlink` line is never reached. -/
def remote_caption_step (env : Env) (src : Chars) : Chars × Bool × Bool :=
  match env.fetch src with
  | Except.error e => (errCap e, false, false)
  | Except.ok _ =>
    match env.hf_api_tmp src with
    | Except.ok c => (c, true, true)
    | Except.error e => (errCap e, true, false)

/-- The `else` branch of the caption computation: remote images are
captioned only with a token and an `http` source. -/
def remoteOrEmpty (env : Env) (src : Chars) : Chars :=
  if env.token && hasPrefixL "http".data src then (remote_caption_step env src).1 else []

/-- The caption computed for one image in `process_file` (lines 155-188):
local file via captioner / API, remote via the download branch, with
every exception turned into an `(error: ...)` caption. -/
def compute_caption (env : Env) (src : Chars) (md_path : Chars) : Chars :=
  match resolve_image_path env.fs src md_path with
  | some q =>
    if env.fs q then
      match env.caption_func with
      | some f =>
        match f q with
        | Except.ok c => c
        | Except.error e => errCap e
      | none =>
        if env.token then
          match env.hf_api q with
          | Except.ok c => c
          | Except.error e => errCap e
        else []
    else remoteOrEmpty env src
  | none => remoteOrEmpty env src

/-- One row of the collected change list:
`(path, kind, src, str(old_alt), caption)`. -/
structure ChangeRec where
  file : Chars
  kind : Kind
  src : Chars
  old_alt : Chars
  caption : Chars
deriving DecidableEq

/-- `f'![{caption}]({src})'`. -/
def mdRepl (caption src : Chars) : Chars :=
  '!' :: '[' :: (caption ++ ']' :: '(' :: (src ++ [')']))

/-- `f'alt="{caption}"'`. -/
def altAttr (caption : Chars) : Chars := "alt=".data ++ '"' :: (caption ++ ['"'])

/-- `tag.rstrip('>')`. -/
def rstripGt (tag : Chars) : Chars := (tag.reverse.dropWhile (fun c => c = '>')).reverse

/-- The per-image loop of `process_file`: re-search the regex at the
recorded offset against the current text (`continue` when it no longer
matches), record one change row, and in apply mode rewrite the span
when the caption is non-empty. -/
def process_go (env : Env) (path : Chars) (applyMode : Bool) :
    List (Kind × Chars × Nat) → Chars → List ChangeRec → List ChangeRec × Chars
  | [], txt, acc => (acc.reverse, txt)
  | (Kind.md, src, pos) :: rest, txt, acc =>
    match searchAux mdAt ((txt.drop pos).length + 1) (txt.drop pos) pos with
    | none => process_go env path applyMode rest txt acc
    | some (st, (alt, _), k) =>
      let caption := compute_caption env src path
      let acc2 := ⟨path, Kind.md, src, alt, caption⟩ :: acc
      let txt2 :=
        if applyMode && !caption.isEmpty then
          txt.take st ++ mdRepl caption src ++ txt.drop (st + k)
        else txt
      process_go env path applyMode rest txt2 acc2
  | (Kind.html, src, pos) :: rest, txt, acc =>
    match searchAux htmlAt ((txt.drop pos).length + 1) (txt.drop pos) pos with
    | none => process_go env path applyMode rest txt acc
    | some (st, tag, k) =>
      let old_alt := (altSearch tag).getD []
      let caption := compute_caption env src path
      let acc2 := ⟨path, Kind.html, src, old_alt, caption⟩ :: acc
      let txt2 :=
        if applyMode && !caption.isEmpty then
          let new_tag :=
            if (altSearch tag).isSome then altSub (altAttr caption) tag.length tag
            else rstripGt tag ++ ' ' :: (altAttr caption ++ ['>'])
          txt.take st ++ new_tag ++ txt.drop (st + k)
        else txt
      process_go env path applyMode rest txt2 acc2

/-- Outcome of `process_file`: the change rows, the final document text
and whether the document (with its backup) was written back, which the
script does exactly when running in apply mode and the text changed. -/
structure Result where
  changes : List ChangeRec
  text : Chars
  wrote : Bool
deriving DecidableEq

/-- `process_file(path, caption_func, token, apply)` on the document text. -/
def process_file (env : Env) (path : Chars) (txt : Chars) (applyMode : Bool) : Result :=
  let images := find_images_in_markdown txt
  let r := process_go env path applyMode images txt []
  { changes := r.1, text := r.2, wrote := applyMode && decide (r.2 ≠ txt) }

/-- The relevant regex still matches somewhere from the recorded offset
of a discovered image (trivially true against the unmutated text). -/
def matchOK (txt : Chars) (e : Kind × Chars × Nat) : Prop :=
  match e.1 with
  | Kind.md => ∃ a k, mdAt (txt.drop e.2.2) = some (a, k)
  | Kind.html => ∃ a k, htmlAt (txt.drop e.2.2) = some (a, k)

/-- The change row produced for one discovered image against a fixed
text snapshot. -/
def mkRec (env : Env) (path txt : Chars) : Kind × Chars × Nat → ChangeRec
  | (Kind.md, src, pos) =>
    { file := path, kind := Kind.md, src := src,
      old_alt :=
        match searchAux mdAt ((txt.drop pos).length + 1) (txt.drop pos) pos with
        | some (_, (alt, _), _) => alt
        | none => []
      caption := compute_caption env src path }
  | (Kind.html, src, pos) =>
    { file := path, kind := Kind.html, src := src,
      old_alt :=
        match searchAux htmlAt ((txt.drop pos).length + 1) (txt.drop pos) pos with
        | some (_, tag, _) => (altSearch tag).getD []
        | none => []
      caption := compute_caption env src path }

/-- A Markdown reference carrying a quoted title: `![alt](src "title")`. -/
def mdRefTitle (alt src title : Chars) : Chars :=
  '!' :: '[' :: (alt ++ ']' :: '(' :: (src ++ ' ' :: '"' :: (title ++ '"' :: [')'])))

/-! ### Concrete scenarios used by counterexamples and witnesses -/

/-- Everything exists; the captioner always answers `c`. -/
def envA : Env where
  fs := fun _ => true
  caption_func := some (fun _ => Except.ok "c".data)
  token := false
  hf_api := fun _ => Except.error []
  fetch := fun _ => Except.error []
  hf_api_tmp := fun _ => Except.error []

def pA : Chars := "content/x.md".data

/-- Two Markdown images; the first has a long alt text, so rewriting it
shrinks the document past the second image's recorded offset. -/
def tA : Chars := "![aaaaaaaaaa](a.png) ![b](b.png)".data

/-- A single-image document. -/
def t1A : Chars := "![a](b.png)".data

def urlB : Chars := "http://h/a.png".data

/-- Remote credential configured; download succeeds; the remote
captioning call raises `boom`. -/
def env4 : Env where
  fs := fun _ => false
  caption_func := none
  token := true
  hf_api := fun _ => Except.error []
  fetch := fun _ => Except.ok ()
  hf_api_tmp := fun _ => Except.error "boom".data

/-- Remote credential configured; download and captioning succeed. -/
def env4ok : Env where
  fs := fun _ => false
  caption_func := none
  token := true
  hf_api := fun _ => Except.error []
  fetch := fun _ => Except.ok ()
  hf_api_tmp := fun _ => Except.ok "cap".data

/-- Captioner that throws on the first document image and succeeds on
the second. -/
def f5 (q : Chars) : Except Chars Chars :=
  if q = "content/a.png".data then Except.error "boom".data else Except.ok "ok".data

def env5 : Env where
  fs := fun _ => true
  caption_func := some f5
  token := false
  hf_api := fun _ => Except.error []
  fetch := fun _ => Except.error []
  hf_api_tmp := fun _ => Except.error []

def t5 : Chars := "![aaaaaaaaaaaaaaaaa](a.png) ![b](b.png)".data

/-- Deterministic captioner giving distinct captions to the two images. -/
def f8 (q : Chars) : Except Chars Chars :=
  if q = "content/a.png".data then Except.ok "c".data else Except.ok "d".data

def env8 : Env where
  fs := fun _ => true
  caption_func := some f8
  token := false
  hf_api := fun _ => Except.error []
  fetch := fun _ => Except.error []
  hf_api_tmp := fun _ => Except.error []

/-- Everything exists; the captioner always answers the given caption. -/
def envCap (C : Chars) : Env where
  fs := fun _ => true
  caption_func := some (fun _ => Except.ok C)
  token := false
  hf_api := fun _ => Except.error []
  fetch := fun _ => Except.error []
  hf_api_tmp := fun _ => Except.error []

def tagNoAlt : Chars := "<img src=\"a.png\">".data

def tagWithAlt : Chars := "<img src=\"a.png\" alt=\"old\">".data

def exC2 : Chars := "<img src=\"a.png\"> ![x](b.png)".data

/-! ### Basic properties of the scanners -/

lemma spanP_middle (p : Char → Prop) [DecidablePred p] (l : Chars) (b : Char) (r : Chars)
    (hl : ∀ x ∈ l, p x) (hb : ¬ p b) :
    spanP p (l ++ b :: r) = (l, b :: r) := by
  induction l with
  | nil => simp [spanP, hb]
  | cons x xs ih =>
    have hx := hl x (List.mem_cons_self x xs)
    have ih2 := ih (fun y hy => hl y (List.mem_cons_of_mem x hy))
    simp [spanP, hx, ih2]

lemma findAux_zero {α : Type} (f : Chars → Option (α × Nat)) (s : Chars) (i : Nat) :
    findAux f 0 s i = [] := rfl

lemma findAux_nil {α : Type} (f : Chars → Option (α × Nat)) (n : Nat) (i : Nat) :
    findAux f n [] i = [] := by cases n <;> rfl

/-- Every entry reported by the scanner is a genuine match of `f` at its
reported index of the original text. -/
lemma findAux_mem {α : Type} (f : Chars → Option (α × Nat)) (txt : Chars) :
    ∀ (n i0 : Nat) (p : Nat) (a : α),
      (p, a) ∈ findAux f n (txt.drop i0) i0 → ∃ k, f (txt.drop p) = some (a, k) := by
  intro n
  induction n with
  | zero => intro i0 p a h; rw [findAux_zero] at h; simp at h
  | succ n ih =>
    intro i0 p a h
    cases hs : txt.drop i0 with
    | nil => rw [hs, findAux_nil] at h; simp at h
    | cons c t =>
      rw [hs] at h
      simp only [findAux] at h
      cases hf : f (c :: t) with
      | none =>
        rw [hf] at h
        have ht : txt.drop (i0 + 1) = t := by
          rw [← List.drop_drop, hs]; rfl
        exact ih (i0 + 1) p a (by rw [ht]; exact h)
      | some ak =>
        obtain ⟨a0, k⟩ := ak
        rw [hf] at h
        rcases List.mem_cons.mp h with h1 | h2
        · obtain ⟨hp, ha⟩ := Prod.mk.injEq .. ▸ h1
          subst hp; subst ha
          exact ⟨k, by rw [hs]; exact hf⟩
        · have ht : txt.drop (i0 + k) = (c :: t).drop k := by
            rw [← List.drop_drop, hs]
          exact ih (i0 + k) p a (by rw [ht]; exact h2)

/-- Every reported match index is at least the scan start. -/
lemma findAux_ge {α : Type} (f : Chars → Option (α × Nat)) :
    ∀ (n : Nat) (s : Chars) (i p : Nat) (a : α), (p, a) ∈ findAux f n s i → i ≤ p := by
  intro n
  induction n with
  | zero => intro s i p a h; rw [findAux_zero] at h; simp at h
  | succ n ih =>
    intro s i p a h
    cases s with
    | nil => rw [findAux_nil] at h; simp at h
    | cons c t =>
      simp only [findAux] at h
      cases hf : f (c :: t) with
      | none =>
        rw [hf] at h
        have := ih t (i + 1) p a h
        omega
      | some ak =>
        obtain ⟨a0, k⟩ := ak
        rw [hf] at h
        rcases List.mem_cons.mp h with h1 | h2
        · obtain ⟨hp, _⟩ := Prod.mk.injEq .. ▸ h1
          omega
        · have := ih ((c :: t).drop k) (i + k) p a h2
          omega

/-- For a matcher with positive match lengths, the reported match
indices are strictly increasing. -/
lemma findAux_pairwise {α : Type} (f : Chars → Option (α × Nat))
    (hf : ∀ s a k, f s = some (a, k) → 0 < k) :
    ∀ (n : Nat) (s : Chars) (i : Nat),
      ((findAux f n s i).map (fun e => e.1)).Pairwise (· < ·) := by
  intro n
  induction n with
  | zero => intro s i; rw [findAux_zero]; simp
  | succ n ih =>
    intro s i
    cases s with
    | nil => rw [findAux_nil]; simp
    | cons c t =>
      simp only [findAux]
      cases hfc : f (c :: t) with
      | none => exact ih t (i + 1)
      | some ak =>
        obtain ⟨a0, k⟩ := ak
        simp only [List.map_cons]
        refine List.Pairwise.cons ?_ (ih ((c :: t).drop k) (i + k))
        intro q hq
        obtain ⟨⟨q', a'⟩, hmem, hqe⟩ := List.mem_map.mp hq
        have hge := findAux_ge f n ((c :: t).drop k) (i + k) q' a' hmem
        have hk := hf _ _ _ hfc
        simp at hqe
        omega

lemma searchAux_found {α : Type} (f : Chars → Option (α × Nat)) (s : Chars) (i : Nat)
    (a : α) (k : Nat) (h : f s = some (a, k)) (n : Nat) :
    searchAux f (n + 1) s i = some (i, a, k) := by
  cases s <;> simp [searchAux, h]

/-- `mdBody` only returns positive match lengths. -/
lemma mdBody_pos (r0 : Chars) (a : Chars × Chars) (k : Nat) (h : mdBody r0 = some (a, k)) :
    0 < k := by
  unfold mdBody at h
  repeat' split at h
  all_goals simp_all
  all_goals omega

lemma mdAt_pos (s : Chars) (a : Chars × Chars) (k : Nat) (h : mdAt s = some (a, k)) : 0 < k := by
  unfold mdAt at h
  repeat' split at h
  · exact mdBody_pos _ _ _ h
  all_goals simp_all

lemma htmlAt_pos (s : Chars) (a : Chars) (k : Nat) (h : htmlAt s = some (a, k)) : 0 < k := by
  unfold htmlAt htmlAfter at h
  repeat' split at h
  all_goals simp_all
  all_goals omega

/-! ### Symbolic evaluation of the matchers on well-formed references -/

/-- `MD_IMG_RE` on a title-free reference `![alt](src)` followed by
anything: matches, capturing `alt` and `src`. -/
lemma mdAt_noTitle (alt src rest : Chars) (halt : ']' ∉ alt)
    (hsrc0 : src ≠ []) (hsrc1 : ')' ∉ src) (hsrc2 : ' ' ∉ src) :
    mdAt ('!' :: '[' :: (alt ++ ']' :: '(' :: (src ++ ')' :: rest)))
      = some ((alt, src), alt.length + src.length + 5) := by
  have h1 : spanP (fun c => c ≠ ']') (alt ++ ']' :: '(' :: (src ++ ')' :: rest))
      = (alt, ']' :: '(' :: (src ++ ')' :: rest)) :=
    spanP_middle _ _ _ _ (fun x hx => ne_of_mem_of_not_mem hx halt) (by simp)
  have h2 : spanP (fun c => ¬(c = ')' ∨ c = ' ')) (src ++ ')' :: rest)
      = (src, ')' :: rest) := by
    refine spanP_middle _ _ _ _ ?_ (by simp)
    intro x hx
    push_neg
    exact ⟨ne_of_mem_of_not_mem hx hsrc1, ne_of_mem_of_not_mem hx hsrc2⟩
  have h3 : mdTitle (')' :: rest) = none := by
    have : spanP pySpaceP (')' :: rest) = ([], ')' :: rest) := by
      simp [spanP]
      intro h; exact absurd h (by simp [pySpaceP])
    simp [mdTitle, this]
  simp only [mdAt, mdBody, if_pos (And.intro rfl rfl), h1, h2, h3, if_neg hsrc0]
  simp

/-- `MD_IMG_RE` on a reference with a quoted title
`![alt](src "title")` followed by anything: matches, capturing `alt`
and `src` and consuming the title. -/
lemma mdAt_title (alt src title rest : Chars) (halt : ']' ∉ alt)
    (hsrc0 : src ≠ []) (hsrc1 : ')' ∉ src) (hsrc2 : ' ' ∉ src) (htl : '"' ∉ title) :
    mdAt ('!' :: '[' :: (alt ++ ']' :: '(' :: (src ++ ' ' :: '"' :: (title ++ '"' :: ')' :: rest))))
      = some ((alt, src), alt.length + src.length + title.length + 8) := by
  have h1 : spanP (fun c => c ≠ ']') (alt ++ ']' :: '(' :: (src ++ ' ' :: '"' :: (title ++ '"' :: ')' :: rest)))
      = (alt, ']' :: '(' :: (src ++ ' ' :: '"' :: (title ++ '"' :: ')' :: rest))) :=
    spanP_middle _ _ _ _ (fun x hx => ne_of_mem_of_not_mem hx halt) (by simp)
  have h2 : spanP (fun c => ¬(c = ')' ∨ c = ' ')) (src ++ ' ' :: '"' :: (title ++ '"' :: ')' :: rest))
      = (src, ' ' :: '"' :: (title ++ '"' :: ')' :: rest)) := by
    refine spanP_middle _ _ _ _ ?_ (by simp)
    intro x hx
    push_neg
    exact ⟨ne_of_mem_of_not_mem hx hsrc1, ne_of_mem_of_not_mem hx hsrc2⟩
  have hws : spanP pySpaceP (' ' :: '"' :: (title ++ '"' :: ')' :: rest))
      = ([' '], '"' :: (title ++ '"' :: ')' :: rest)) := by
    have hsp : pySpaceP ' ' := by simp [pySpaceP]
    have hnq : ¬ pySpaceP '"' := by simp [pySpaceP]
    simp [spanP, hsp, hnq]
  have ht2 : spanP (fun c => c ≠ '"') (title ++ '"' :: ')' :: rest)
      = (title, '"' :: ')' :: rest) :=
    spanP_middle _ _ _ _ (fun x hx => ne_of_mem_of_not_mem hx htl) (by simp)
  have h3 : mdTitle (' ' :: '"' :: (title ++ '"' :: ')' :: rest))
      = some (title.length + 3, ')' :: rest) := by
    simp only [mdTitle, hws, ht2]
    simp
    omega
  simp only [mdAt, mdBody, if_pos (And.intro rfl rfl), h1, h2, h3, if_neg hsrc0]
  simp
  omega

/-- A text containing no `<` has no `HTML_IMG_RE` match anywhere. -/
lemma findAux_html_nil (n : Nat) :
    ∀ (s : Chars), (∀ x ∈ s, x ≠ '<') → ∀ i, findAux htmlAt n s i = [] := by
  induction n with
  | zero => intro s _ i; rfl
  | succ n ih =>
    intro s hs i
    cases s with
    | nil => rfl
    | cons c t =>
      have hc : c ≠ '<' := hs c (List.mem_cons_self c t)
      simp only [findAux, htmlAt, if_neg hc]
      exact ih t (fun x hx => hs x (List.mem_cons_of_mem c hx)) (i + 1)

lemma mdRepl_length (a s : Chars) : (mdRepl a s).length = a.length + s.length + 5 := by
  simp [mdRepl]
  omega

/-- `MD_IMG_RE` matches a title-free reference in full. -/
lemma mdAt_mdRepl (a s : Chars) (ha : ']' ∉ a) (hs0 : s ≠ []) (hs1 : ')' ∉ s) (hs2 : ' ' ∉ s) :
    mdAt (mdRepl a s) = some ((a, s), (mdRepl a s).length) := by
  rw [mdRepl_length]
  exact mdAt_noTitle a s [] ha hs0 hs1 hs2

/-! ### Processing a document that is exactly one Markdown reference -/

lemma find_images_single_md (txt alt src : Chars)
    (hm : mdAt txt = some ((alt, src), txt.length))
    (hlt : ∀ x ∈ txt, x ≠ '<') :
    find_images_in_markdown txt = [(Kind.md, src, 0)] := by
  have htxt : txt ≠ [] := by
    intro h; rw [h] at hm; exact absurd hm (by simp [mdAt])
  obtain ⟨c, t, rfl⟩ : ∃ c t, txt = c :: t := by
    cases txt with
    | nil => exact absurd rfl htxt
    | cons c t => exact ⟨c, t, rfl⟩
  unfold find_images_in_markdown mdImages htmlImages
  rw [findAux_html_nil ((c :: t).length) _ hlt 0]
  have hlen : (c :: t).length = t.length + 1 := rfl
  rw [hlen]
  simp only [findAux]
  rw [hm, hlen]
  dsimp only
  rw [List.drop_succ_cons, List.drop_length, findAux_nil]
  simp

/-- Apply-mode processing of a document that consists of exactly one
Markdown image reference: one change row; the text is rewritten to
`![caption](src)` when the caption is non-empty and kept otherwise. -/
lemma process_single_md (env : Env) (path txt alt src : Chars)
    (hm : mdAt txt = some ((alt, src), txt.length))
    (hlt : ∀ x ∈ txt, x ≠ '<') :
    (process_file env path txt true).changes
        = [⟨path, Kind.md, src, alt, compute_caption env src path⟩]
    ∧ (process_file env path txt true).text
        = (if compute_caption env src path = [] then txt
           else mdRepl (compute_caption env src path) src) := by
  have hfi := find_images_single_md txt alt src hm hlt
  unfold process_file
  rw [hfi]
  simp only [process_go, List.drop_zero]
  rw [searchAux_found mdAt txt 0 (alt, src) txt.length hm txt.length]
  simp only [process_go]
  by_cases hc : compute_caption env src path = []
  · rw [hc]
    simp
  · have hne : (compute_caption env src path).isEmpty = false := by
      cases h : compute_caption env src path with
      | nil => exact absurd h hc
      | cons a b => rfl
    simp [hne, hc, List.drop_length]

/-! ### The dry-run loop as a pointwise map -/

/-- In dry-run mode the text is never mutated, every re-search succeeds,
and the loop is exactly a pointwise map over the discovered images. -/
lemma process_go_dry (env : Env) (path txt : Chars) :
    ∀ (imgs : List (Kind × Chars × Nat)) (acc : List ChangeRec),
      (∀ e ∈ imgs, matchOK txt e) →
      process_go env path false imgs txt acc
        = (acc.reverse ++ imgs.map (mkRec env path txt), txt) := by
  intro imgs
  induction imgs with
  | nil => intro acc _; simp [process_go]
  | cons e rest ih =>
    intro acc hok
    obtain ⟨⟨kind, src, pos⟩, rfl⟩ : ∃ e', e' = e := ⟨e, rfl⟩
    have hrest : ∀ e' ∈ rest, matchOK txt e' :=
      fun e' he' => hok e' (List.mem_cons_of_mem _ he')
    have hhead := hok _ (List.mem_cons_self _ rest)
    cases kind with
    | md =>
      obtain ⟨a, k, hma⟩ := hhead
      simp only [process_go]
      rw [searchAux_found mdAt (txt.drop pos) pos a k hma ((txt.drop pos).length)]
      obtain ⟨alt, srcg⟩ := a
      dsimp only
      simp only [Bool.false_and, if_neg (by simp : ¬ (false = true))]
      rw [ih _ hrest]
      simp [mkRec, searchAux_found mdAt (txt.drop pos) pos (alt, srcg) k hma]
    | html =>
      obtain ⟨a, k, hma⟩ := hhead
      simp only [process_go]
      rw [searchAux_found htmlAt (txt.drop pos) pos a k hma ((txt.drop pos).length)]
      dsimp only
      simp only [Bool.false_and, if_neg (by simp : ¬ (false = true))]
      rw [ih _ hrest]
      simp [mkRec, searchAux_found htmlAt (txt.drop pos) pos a k hma]

/-- In any mode, each discovered image contributes at most one change row. -/
lemma process_go_len (env : Env) (path : Chars) (am : Bool) :
    ∀ (imgs : List (Kind × Chars × Nat)) (txt : Chars) (acc : List ChangeRec),
      ((process_go env path am imgs txt acc).1).length ≤ imgs.length + acc.length := by
  intro imgs
  induction imgs with
  | nil => intro txt acc; simp [process_go]
  | cons e rest ih =>
    intro txt acc
    obtain ⟨⟨kind, src, pos⟩, rfl⟩ : ∃ e', e' = e := ⟨e, rfl⟩
    cases kind with
    | md =>
      simp only [process_go]
      cases hs : searchAux mdAt ((txt.drop pos).length + 1) (txt.drop pos) pos with
      | none =>
        have := ih txt acc
        simp only [List.length_cons]
        omega
      | some val =>
        obtain ⟨st, ⟨alt, srcg⟩, k⟩ := val
        dsimp only
        have := ih (if am && !(compute_caption env src path).isEmpty then
            txt.take st ++ mdRepl (compute_caption env src path) src ++ txt.drop (st + k)
          else txt) (⟨path, Kind.md, src, alt, compute_caption env src path⟩ :: acc)
        simp only [List.length_cons] at this ⊢
        omega
    | html =>
      simp only [process_go]
      cases hs : searchAux htmlAt ((txt.drop pos).length + 1) (txt.drop pos) pos with
      | none =>
        have := ih txt acc
        simp only [List.length_cons]
        omega
      | some val =>
        obtain ⟨st, tag, k⟩ := val
        dsimp only
        have := ih (if am && !(compute_caption env src path).isEmpty then
            txt.take st ++
              (if (altSearch tag).isSome then altSub (altAttr (compute_caption env src path)) tag.length tag
               else rstripGt tag ++ ' ' :: (altAttr (compute_caption env src path) ++ ['>'])) ++
              txt.drop (st + k)
          else txt) (⟨path, Kind.html, src, (altSearch tag).getD [], compute_caption env src path⟩ :: acc)
        simp only [List.length_cons] at this ⊢
        omega

/-- Every image discovered by the locator satisfies `matchOK` against
the original text. -/
lemma find_images_matchOK (txt : Chars) :
    ∀ e ∈ find_images_in_markdown txt, matchOK txt e := by
  intro e he
  rcases List.mem_append.mp he with h | h
  · obtain ⟨⟨i, a⟩, hmem, rfl⟩ := List.mem_map.mp h
    have hm := findAux_mem mdAt txt txt.length 0 i a (by rw [List.drop_zero]; exact hmem)
    obtain ⟨k, hk⟩ := hm
    exact ⟨a, k, hk⟩
  · obtain ⟨⟨i, tag⟩, hmem, hmap⟩ := List.mem_filterMap.mp h
    obtain ⟨v, hv, rfl⟩ := Option.map_eq_some'.mp hmap
    have hm := findAux_mem htmlAt txt txt.length 0 i tag (by rw [List.drop_zero]; exact hmem)
    obtain ⟨k, hk⟩ := hm
    exact ⟨tag, k, hk⟩

/-- A captioning exception on a resolved, existing local file becomes a
visible `(error: ...)` caption. -/
lemma compute_caption_err (env : Env) (src path q e : Chars)
    (f : Chars → Except Chars Chars)
    (hcf : env.caption_func = some f)
    (hres : resolve_image_path env.fs src path = some q)
    (hfs : env.fs q = true)
    (hf : f q = Except.error e) :
    compute_caption env src path = errCap e := by
  unfold compute_caption
  simp [hres, hfs, hcf, hf]

/-! ### Further helpers for the claim theorems -/

/-- The HTML reference positions form a sublist of the scanner's match
positions (tags without `src` are dropped). -/
lemma htmlImages_pos_sublist (txt : Chars) :
    ((htmlImages txt).map (fun e => e.2.2)).Sublist
      ((findAux htmlAt txt.length txt 0).map (fun e => e.1)) := by
  unfold htmlImages
  generalize findAux htmlAt txt.length txt 0 = l
  induction l with
  | nil => simp
  | cons e rest ih =>
    obtain ⟨i, tag⟩ := e
    cases hg : srcSearch tag with
    | none =>
      simp only [List.filterMap_cons, hg, List.map_cons]
      exact ih.cons _
    | some v =>
      simp only [List.filterMap_cons, hg, Option.map_some', List.map_cons]
      exact ih.cons₂ _

lemma mdRefTitle_length (alt src title : Chars) :
    (mdRefTitle alt src title).length = alt.length + src.length + title.length + 8 := by
  simp [mdRefTitle]
  omega

lemma mdAt_mdRefTitle (alt src title : Chars) (halt : ']' ∉ alt)
    (hsrc0 : src ≠ []) (hsrc1 : ')' ∉ src) (hsrc2 : ' ' ∉ src) (htl : '"' ∉ title) :
    mdAt (mdRefTitle alt src title)
      = some ((alt, src), (mdRefTitle alt src title).length) := by
  rw [mdRefTitle_length]
  exact mdAt_title alt src title [] halt hsrc0 hsrc1 hsrc2 htl

lemma find_images_single_html (txt tag src : Chars)
    (hm : htmlAt txt = some (tag, txt.length))
    (hsrc : srcSearch tag = some src)
    (hmd : findAux mdAt txt.length txt 0 = []) :
    find_images_in_markdown txt = [(Kind.html, src, 0)] := by
  have htxt : txt ≠ [] := by
    intro h; rw [h] at hm; exact absurd hm (by simp [htmlAt])
  obtain ⟨c, t, rfl⟩ : ∃ c t, txt = c :: t := by
    cases txt with
    | nil => exact absurd rfl htxt
    | cons c t => exact ⟨c, t, rfl⟩
  unfold find_images_in_markdown mdImages htmlImages
  rw [hmd]
  have hlen : (c :: t).length = t.length + 1 := rfl
  rw [hlen]
  simp only [findAux]
  rw [hm, hlen]
  dsimp only
  rw [List.drop_succ_cons, List.drop_length, findAux_nil]
  simp [hsrc]

/-- Apply-mode processing of a document that consists of exactly one
HTML image tag. -/
lemma process_single_html (env : Env) (path txt tag src : Chars)
    (hm : htmlAt txt = some (tag, txt.length))
    (hsrc : srcSearch tag = some src)
    (hmd : findAux mdAt txt.length txt 0 = []) :
    (process_file env path txt true).changes
        = [⟨path, Kind.html, src, (altSearch tag).getD [], compute_caption env src path⟩]
    ∧ (process_file env path txt true).text
        = (if compute_caption env src path = [] then txt
           else
             if (altSearch tag).isSome then
               altSub (altAttr (compute_caption env src path)) tag.length tag
             else rstripGt tag ++ ' ' :: (altAttr (compute_caption env src path) ++ ['>'])) := by
  have hfi := find_images_single_html txt tag src hm hsrc hmd
  unfold process_file
  rw [hfi]
  simp only [process_go, List.drop_zero]
  rw [searchAux_found htmlAt txt 0 tag txt.length hm txt.length]
  simp only [process_go]
  by_cases hc : compute_caption env src path = []
  · rw [hc]
    simp
  · have hne : (compute_caption env src path).isEmpty = false := by
      cases h : compute_caption env src path with
      | nil => exact absurd h hc
      | cons a b => rfl
    simp [hne, hc, List.drop_length]

lemma mdRepl_no_lt (a s : Chars) (ha : '<' ∉ a) (hs : '<' ∉ s) :
    ∀ x ∈ mdRepl a s, x ≠ '<' := by
  intro x hx heq
  subst heq
  simp [mdRepl] at hx
  rcases hx with h | h
  exacts [ha h, hs h]

/-- A run whose final text equals the input text writes nothing back. -/
lemma wrote_false_of_fix (env : Env) (path txt : Chars) (am : Bool)
    (h : (process_file env path txt am).text = txt) :
    (process_file env path txt am).wrote = false := by
  simp only [process_file] at h ⊢
  rw [h]
  simp

/-! ### Claim theorems -/

/-- C1 (amended): every discovered `ImageReference` yields at most one
`ChangeRecord`, and in dry-run mode exactly one (one report row per
discovered image, regardless of captioning success); in apply mode an
earlier rewrite can displace a later image's recorded offset so that
its re-search fails and it yields no record. -/
theorem changes_per_image (env : Env) (path txt : Chars) (applyMode : Bool) :
    ((process_file env path txt applyMode).changes).length
        ≤ (find_images_in_markdown txt).length
    ∧ (applyMode = false →
        ((process_file env path txt applyMode).changes).length
          = (find_images_in_markdown txt).length) := by
  constructor
  · have h := process_go_len env path applyMode (find_images_in_markdown txt) txt []
    simpa [process_file] using h
  · intro h
    subst h
    have h := process_go_dry env path txt (find_images_in_markdown txt) []
      (find_images_matchOK txt)
    simp [process_file, h]

theorem changes_per_image_witness :
    ((process_file envA pA tA false).changes).length
        = (find_images_in_markdown tA).length
    ∧ ((process_file envA pA tA false).changes).length
        ≤ (find_images_in_markdown tA).length :=
  ⟨(changes_per_image envA pA tA false).2 rfl, (changes_per_image envA pA tA false).1⟩

/-- C1 counterexample: in apply mode, rewriting the first image of `tA`
with its caption shrinks the text, the second image's re-search from
its stale offset fails, and only one change row is collected for two
discovered images. -/
theorem apply_mode_drops_record :
    (find_images_in_markdown tA).length = 2
    ∧ ((process_file envA pA tA true).changes).length = 1 := by
  constructor <;> decide

/-- C2 (amended): the locator returns all Markdown matches in their
order of occurrence, followed by all HTML matches in their order of
occurrence; the combined list is grouped by syntax, not globally
ordered by text position. -/
theorem find_images_syntax_grouped (txt : Chars) :
    find_images_in_markdown txt = mdImages txt ++ htmlImages txt
    ∧ ((mdImages txt).map (fun e => e.2.2)).Pairwise (· < ·)
    ∧ ((htmlImages txt).map (fun e => e.2.2)).Pairwise (· < ·) := by
  refine ⟨rfl, ?_, ?_⟩
  · unfold mdImages
    rw [List.map_map]
    have h := findAux_pairwise mdAt (fun s a k hk => mdAt_pos s a k hk) txt.length txt 0
    simpa [Function.comp] using h
  · have hsub := htmlImages_pos_sublist txt
    have hpw := findAux_pairwise htmlAt (fun s a k hk => htmlAt_pos s a k hk) txt.length txt 0
    exact hpw.sublist hsub

/-- C2 counterexample: an HTML tag at offset 0 followed by a Markdown
image at offset 18 is reported Markdown-first, so the reference list is
not in text order. -/
theorem find_images_not_text_ordered :
    (find_images_in_markdown exC2).map (fun e => e.2.2) = [18, 0]
    ∧ ¬ ((find_images_in_markdown exC2).map (fun e => e.2.2)).Pairwise (· < ·) := by
  constructor <;> decide

/-- C3 (amended): for documents in which the locator finds at most one
image, dry-run and apply mode collect identical change lists; dry-run
never writes to storage.  (With two or more images, apply-mode rewrites
can displace later matches and change later rows.) -/
theorem dry_apply_single (env : Env) (path txt : Chars)
    (h : (find_images_in_markdown txt).length ≤ 1) :
    (process_file env path txt false).changes = (process_file env path txt true).changes
    ∧ (process_file env path txt false).wrote = false := by
  constructor
  · unfold process_file
    cases hl : find_images_in_markdown txt with
    | nil => rfl
    | cons e rest =>
      cases rest with
      | cons e2 r2 => rw [hl] at h; simp at h
      | nil =>
        obtain ⟨⟨kind, src, pos⟩, rfl⟩ : ∃ e', e' = e := ⟨e, rfl⟩
        cases kind with
        | md =>
          simp only [process_go]
          cases hs : searchAux mdAt ((txt.drop pos).length + 1) (txt.drop pos) pos with
          | none => rfl
          | some val =>
            obtain ⟨st, ⟨alt, g⟩, k⟩ := val
            simp [process_go]
        | html =>
          simp only [process_go]
          cases hs : searchAux htmlAt ((txt.drop pos).length + 1) (txt.drop pos) pos with
          | none => rfl
          | some val =>
            obtain ⟨st, tag, k⟩ := val
            simp [process_go]
  · simp [process_file]

theorem dry_apply_single_witness :
    (find_images_in_markdown t1A).length ≤ 1
    ∧ (process_file envA pA t1A false).changes = (process_file envA pA t1A true).changes
    ∧ (process_file envA pA t1A false).wrote = false :=
  ⟨by decide, (dry_apply_single envA pA t1A (by decide)).1,
    (dry_apply_single envA pA t1A (by decide)).2⟩

/-- C3 counterexample: on the two-image document `tA`, the dry-run
report has two rows but the apply-mode report has one, so the two modes
do not produce identical report contents. -/
theorem dry_apply_reports_differ :
    (process_file envA pA tA false).changes ≠ (process_file envA pA tA true).changes := by
  decide

/-- C4 (code bug): when the remote captioning call raises, the
downloaded temporary file is created but never removed (`os.unlink` is
only reached on success and `NamedTemporaryFile(delete=False)` does not
delete on close), contradicting the documented behaviour that
the transient file is always removed; on success it is removed.  The
triple is `(caption, tempFileCreated, tempFileRemoved)`. -/
theorem remote_tmpfile_leak :
    remote_caption_step env4 urlB = ("(error: boom)".data, true, false)
    ∧ remote_caption_step env4ok urlB = ("cap".data, true, true)
    ∧ compute_caption env4 urlB pA = "(error: boom)".data := by
  refine ⟨by decide, by decide, by decide⟩

/-- C5 (amended): in dry-run mode failures are isolated per image: the
collected rows are a pointwise function of each image's own source, a
captioning exception on one image becomes its visible
`(error: <message>)` caption, and every other image still receives the
caption computed from its own source.  (In apply mode a rewrite caused
by any non-empty caption, including an error placeholder, can shift a
later image's offset and drop its row.) -/
theorem error_isolation_dry_run (env : Env) (path txt : Chars) :
    ((process_file env path txt false).changes).map (fun r => (r.src, r.caption))
      = (find_images_in_markdown txt).map
          (fun e => (e.2.1, compute_caption env e.2.1 path))
    ∧ (∀ (src q e : Chars) (f : Chars → Except Chars Chars),
        env.caption_func = some f →
        resolve_image_path env.fs src path = some q →
        env.fs q = true → f q = Except.error e →
        compute_caption env src path = errCap e) := by
  constructor
  · have hd := process_go_dry env path txt (find_images_in_markdown txt) []
      (find_images_matchOK txt)
    simp only [process_file, hd, List.reverse_nil, List.nil_append, List.map_map]
    have hfun : ((fun r : ChangeRec => (r.src, r.caption)) ∘ mkRec env path txt)
        = fun e : Kind × Chars × Nat => (e.2.1, compute_caption env e.2.1 path) := by
      funext e
      obtain ⟨⟨kind, src, pos⟩, rfl⟩ : ∃ e', e' = e := ⟨e, rfl⟩
      cases kind <;> rfl
    simp [hfun]
  · intro src q e f hcf hres hfs hf
    exact compute_caption_err env src path q e f hcf hres hfs hf

theorem error_isolation_dry_run_witness :
    compute_caption env5 "a.png".data pA = errCap "boom".data :=
  (error_isolation_dry_run env5 pA t5).2 "a.png".data "content/a.png".data "boom".data f5
    rfl (by decide) rfl rfl

/-- C5 counterexample: in apply mode on `t5`, the captioner throws on
the first image and succeeds on the second; the first image's error
placeholder is written and shrinks the text, the second image's
re-search fails, and the second image never receives its normal caption
`ok` — only one row is collected for two discovered images. -/
theorem error_not_isolated_in_apply :
    (find_images_in_markdown t5).length = 2
    ∧ (process_file env5 pA t5 true).changes
        = [⟨pA, Kind.md, "a.png".data, "aaaaaaaaaaaaaaaaa".data, "(error: boom)".data⟩]
    ∧ compute_caption env5 "b.png".data pA = "ok".data := by
  refine ⟨by decide, by decide, by decide⟩

/-- C6: locating a Markdown reference `![alt](src "title")` and
rewriting it in apply mode with a non-empty caption replaces the full
matched span by `![caption](src)`: the title is dropped and the
destination path is unchanged. -/
theorem md_rewrite_drops_title (env : Env) (path alt src title : Chars)
    (halt : ']' ∉ alt) (halt2 : '<' ∉ alt)
    (hsrc0 : src ≠ []) (hsrc1 : ')' ∉ src) (hsrc2 : ' ' ∉ src) (hsrc3 : '<' ∉ src)
    (htl : '"' ∉ title) (htl2 : '<' ∉ title)
    (hC : compute_caption env src path ≠ []) :
    (process_file env path (mdRefTitle alt src title) true).text
      = mdRepl (compute_caption env src path) src := by
  have hlt : ∀ x ∈ mdRefTitle alt src title, x ≠ '<' := by
    intro x hx heq
    subst heq
    simp [mdRefTitle] at hx
    rcases hx with h | h | h
    exacts [halt2 h, hsrc3 h, htl2 h]
  have h := (process_single_md env path _ alt src
    (mdAt_mdRefTitle alt src title halt hsrc0 hsrc1 hsrc2 htl) hlt).2
  rw [h, if_neg hC]

theorem md_rewrite_drops_title_witness :
    (process_file envA pA (mdRefTitle "a".data "b.png".data "t".data) true).text
      = mdRepl "c".data "b.png".data := by
  have h := md_rewrite_drops_title envA pA "a".data "b.png".data "t".data
    (by decide) (by decide) (by decide) (by decide) (by decide) (by decide)
    (by decide) (by decide) (by decide)
  rw [h]
  decide

/-- C8 (amended): a single-image document whose image already carries
its generated caption is a fixpoint of apply mode: a second apply run
on the output of a first run changes nothing and writes nothing.  The
output of a first apply run on a multi-image document need not be such
a state, because a rewrite can displace a later image's match: see the
counterexample. -/
theorem apply_fixpoint_single_image (env : Env) (path alt src : Chars)
    (halt : ']' ∉ alt) (halt2 : '<' ∉ alt)
    (hsrc0 : src ≠ []) (hsrc1 : ')' ∉ src) (hsrc2 : ' ' ∉ src) (hsrc3 : '<' ∉ src)
    (hC1 : ']' ∉ compute_caption env src path)
    (hC2 : '<' ∉ compute_caption env src path) :
    (process_file env path ((process_file env path (mdRepl alt src) true).text) true).text
      = (process_file env path (mdRepl alt src) true).text
    ∧ (process_file env path ((process_file env path (mdRepl alt src) true).text) true).wrote
      = false := by
  have hlt1 := mdRepl_no_lt alt src halt2 hsrc3
  have h1 := (process_single_md env path _ alt src
    (mdAt_mdRepl alt src halt hsrc0 hsrc1 hsrc2) hlt1).2
  have key : (process_file env path ((process_file env path (mdRepl alt src) true).text) true).text
      = (process_file env path (mdRepl alt src) true).text := by
    by_cases hc : compute_caption env src path = []
    · rw [h1, if_pos hc, h1, if_pos hc]
    · have hlt2 := mdRepl_no_lt (compute_caption env src path) src hC2 hsrc3
      have h2 := (process_single_md env path _ (compute_caption env src path) src
        (mdAt_mdRepl (compute_caption env src path) src hC1 hsrc0 hsrc1 hsrc2) hlt2).2
      rw [h1, if_neg hc, h2, if_neg hc]
  exact ⟨key, wrote_false_of_fix env path _ true key⟩

theorem apply_fixpoint_single_image_witness :
    (process_file envA pA ((process_file envA pA (mdRepl "a".data "b.png".data) true).text) true).text
      = (process_file envA pA (mdRepl "a".data "b.png".data) true).text
    ∧ (process_file envA pA ((process_file envA pA (mdRepl "a".data "b.png".data) true).text) true).wrote
      = false :=
  apply_fixpoint_single_image envA pA "a".data "b.png".data (by decide) (by decide)
    (by decide) (by decide) (by decide) (by decide) (by decide) (by decide)

/-- C8 counterexample: after one apply run on the two-image document
`tA`, the second image was skipped and does not yet carry its caption,
so a second apply run with the unchanged deterministic captioner
rewrites it and changes the text again. -/
theorem second_apply_changes_text :
    (process_file env8 pA ((process_file env8 pA tA true).text) true).text
      ≠ (process_file env8 pA tA true).text := by
  decide

/-- C10: in apply mode a captioning exception yields the non-empty
placeholder `(error: <message>)`, which is written into the document as
the image's new alt text — the rewrite step is not skipped for failed
captions; an image whose caption is empty is left untouched. -/
theorem error_placeholder_applied (env : Env) (path alt src q e : Chars)
    (f : Chars → Except Chars Chars)
    (halt : ']' ∉ alt) (halt2 : '<' ∉ alt)
    (hsrc0 : src ≠ []) (hsrc1 : ')' ∉ src) (hsrc2 : ' ' ∉ src) (hsrc3 : '<' ∉ src)
    (hcf : env.caption_func = some f)
    (hres : resolve_image_path env.fs src path = some q)
    (hfs : env.fs q = true)
    (hf : f q = Except.error e) :
    (process_file env path (mdRepl alt src) true).text = mdRepl (errCap e) src
    ∧ errCap e ≠ []
    ∧ (∀ env2 : Env, compute_caption env2 src path = [] →
        (process_file env2 path (mdRepl alt src) true).text = mdRepl alt src) := by
  have hcc := compute_caption_err env src path q e f hcf hres hfs hf
  have hlt := mdRepl_no_lt alt src halt2 hsrc3
  have herr : errCap e ≠ [] := by simp [errCap]
  refine ⟨?_, herr, ?_⟩
  · have h := (process_single_md env path _ alt src
      (mdAt_mdRepl alt src halt hsrc0 hsrc1 hsrc2) hlt).2
    rw [h, hcc, if_neg herr]
  · intro env2 h2
    have h := (process_single_md env2 path _ alt src
      (mdAt_mdRepl alt src halt hsrc0 hsrc1 hsrc2) hlt).2
    rw [h, if_pos h2]

theorem error_placeholder_applied_witness :
    (process_file env5 pA (mdRepl "x".data "a.png".data) true).text
      = mdRepl (errCap "boom".data) "a.png".data :=
  (error_placeholder_applied env5 pA "x".data "a.png".data "content/a.png".data
    "boom".data f5 (by decide) (by decide) (by decide) (by decide) (by decide)
    (by decide) rfl (by decide) rfl rfl).1

lemma firstExisting_eq_find (fs : Chars → Bool) :
    ∀ l : List Chars, firstExisting fs l = l.find? fs := by
  intro l
  induction l with
  | nil => rfl
  | cons c t ih =>
    by_cases h : fs c
    · simp [firstExisting, List.find?, h]
    · simp [firstExisting, List.find?, h, ih]

/-- C7: rewriting `<img src="a.png">` (no alt attribute) with a
non-empty caption appends `alt="caption"` before the tag's closing `>`
with `src` unchanged; rewriting `<img src="a.png" alt="old">` replaces
the alt value `old` by the caption in place.  (The backslash-freedom
hypothesis keeps the modelled literal `re.sub` replacement faithful to
Python's template expansion.) -/
theorem html_rewrite_alt (C : Chars) (hC : C ≠ []) (hB : '\\' ∉ C) :
    (process_file (envCap C) pA tagNoAlt true).text
      = "<img src=\"a.png\" alt=\"".data ++ C ++ "\">".data
    ∧ (process_file (envCap C) pA tagWithAlt true).text
      = "<img src=\"a.png\" alt=\"".data ++ C ++ "\">".data := by
  have hcap : compute_caption (envCap C) "a.png".data pA = C := rfl
  constructor
  · have h := (process_single_html (envCap C) pA tagNoAlt tagNoAlt "a.png".data
      (by decide) (by decide) (by decide)).2
    rw [h, hcap, if_neg hC]
    have ha : altSearch tagNoAlt = none := by decide
    rw [ha]
    have hr : rstripGt tagNoAlt = "<img src=\"a.png\"".data := by decide
    simp only [Option.isSome_none, Bool.false_eq_true, if_false, hr]
    simp [altAttr, List.append_assoc]
  · have h := (process_single_html (envCap C) pA tagWithAlt tagWithAlt "a.png".data
      (by decide) (by decide) (by decide)).2
    rw [h, hcap, if_neg hC]
    have ha : altSearch tagWithAlt = some "old".data := by decide
    rw [ha]
    simp only [Option.isSome_some, if_true]
    have hsub : altSub (altAttr C) tagWithAlt.length tagWithAlt
        = "<img src=\"a.png\" ".data ++ (altAttr C ++ ['>']) := rfl
    rw [hsub]
    simp [altAttr, List.append_assoc]

theorem html_rewrite_alt_witness :
    ("x".data ≠ ([] : Chars))
    ∧ (process_file (envCap "x".data) pA tagNoAlt true).text
        = "<img src=\"a.png\" alt=\"".data ++ "x".data ++ "\">".data
    ∧ (process_file (envCap "x".data) pA tagWithAlt true).text
        = "<img src=\"a.png\" alt=\"".data ++ "x".data ++ "\">".data :=
  ⟨by decide, (html_rewrite_alt "x".data (by decide) (by decide)).1,
    (html_rewrite_alt "x".data (by decide) (by decide)).2⟩

/-- C9: for every non-remote source the resolver behaves exactly as the
spec-modelled resolver: it tries the ordered candidate list (relative:
document directory, then static root, then working directory;
root-relative: static root, then working-directory root), returns the
first existing candidate, and still returns the first candidate (never
`None`) when none exists. -/
theorem resolve_candidate_order (fs : Chars → Bool) (src md_path : Chars)
    (h1 : hasPrefixL "http://".data (stripQF src) = false)
    (h2 : hasPrefixL "https://".data (stripQF src) = false) :
    resolve_image_path fs src md_path = spec_resolve fs src md_path
    ∧ (resolve_image_path fs src md_path).isSome = true := by
  have key : resolve_image_path fs src md_path = spec_resolve fs src md_path := by
    unfold resolve_image_path spec_resolve spec_candidates
    simp [h1, h2, firstExisting_eq_find]
  refine ⟨key, ?_⟩
  rw [key]
  unfold spec_resolve
  cases h : (spec_candidates src md_path).find? fs <;> simp

theorem resolve_candidate_order_witness :
    hasPrefixL "http://".data (stripQF "a.png".data) = false
    ∧ resolve_image_path fsB "a.png".data pA = spec_resolve fsB "a.png".data pA
    ∧ (resolve_image_path fsB "a.png".data pA).isSome = true :=
  ⟨by decide, (resolve_candidate_order fsB "a.png".data pA (by decide) (by decide)).1,
    (resolve_candidate_order fsB "a.png".data pA (by decide) (by decide)).2⟩

end AltText
